import Mathlib

/-!
Verification of the spherical-Gaussian (SG) renderer in `model/sg_render.py`.

The Python source operates on broadcasted float tensors; we model one surface
point and one color channel over the real numbers (all RGB operations in the
source are componentwise, and all per-point computations are independent, so
this loses no generality for the properties below).  3-vectors are modelled by
the `Vec3` structure, float tensors by `ℝ`, tensor lists by `List`, and the
external visibility predictor by an arbitrary function returning a 2-class
score pair.  `torch.clamp(x, min=a)` is `max x a`, `torch.clamp(x, max=a)` is
`min x a`.
-/

open Real

noncomputable section

/-- `TINY_NUMBER = 1e-6` from `sg_render.py` line 6. -/
def TINY : ℝ := 1e-6

/-- A 3-vector of reals (one row of a `[..., 3]` tensor). -/
@[ext] structure Vec3 where
  x : ℝ
  y : ℝ
  z : ℝ

namespace Vec3

instance : Add Vec3 := ⟨fun a b => ⟨a.x + b.x, a.y + b.y, a.z + b.z⟩⟩

instance : Sub Vec3 := ⟨fun a b => ⟨a.x - b.x, a.y - b.y, a.z - b.z⟩⟩

instance : Neg Vec3 := ⟨fun a => ⟨-a.x, -a.y, -a.z⟩⟩

instance : SMul ℝ Vec3 := ⟨fun r v => ⟨r * v.x, r * v.y, r * v.z⟩⟩

@[simp] theorem add_x (a b : Vec3) : (a + b).x = a.x + b.x := rfl

@[simp] theorem add_y (a b : Vec3) : (a + b).y = a.y + b.y := rfl

@[simp] theorem add_z (a b : Vec3) : (a + b).z = a.z + b.z := rfl

@[simp] theorem sub_x (a b : Vec3) : (a - b).x = a.x - b.x := rfl

@[simp] theorem sub_y (a b : Vec3) : (a - b).y = a.y - b.y := rfl

@[simp] theorem sub_z (a b : Vec3) : (a - b).z = a.z - b.z := rfl

@[simp] theorem neg_x (a : Vec3) : (-a).x = -a.x := rfl

@[simp] theorem neg_y (a : Vec3) : (-a).y = -a.y := rfl

@[simp] theorem neg_z (a : Vec3) : (-a).z = -a.z := rfl

@[simp] theorem smul_x (r : ℝ) (v : Vec3) : (r • v).x = r * v.x := rfl

@[simp] theorem smul_y (r : ℝ) (v : Vec3) : (r • v).y = r * v.y := rfl

@[simp] theorem smul_z (r : ℝ) (v : Vec3) : (r • v).z = r * v.z := rfl

/-- `torch.sum(a * b, dim=-1)` for two `[..., 3]` rows. -/
def dot (a b : Vec3) : ℝ := a.x * b.x + a.y * b.y + a.z * b.z

/-- `torch.cross` on the last axis. -/
def cross (a b : Vec3) : Vec3 :=
  ⟨a.y * b.z - a.z * b.y, a.z * b.x - a.x * b.z, a.x * b.y - a.y * b.x⟩

/-- `torch.norm(v, dim=-1)`. -/
def norm (v : Vec3) : ℝ := Real.sqrt (dot v v)

theorem dot_self_nonneg (v : Vec3) : 0 ≤ dot v v := by
  unfold dot; nlinarith [sq_nonneg v.x, sq_nonneg v.y, sq_nonneg v.z]

theorem norm_nonneg (v : Vec3) : 0 ≤ norm v := Real.sqrt_nonneg _

end Vec3

/-- `norm_axis` (`sg_render.py` lines 107-108): `x / (torch.norm(x) + TINY_NUMBER)`. -/
def norm_axis (v : Vec3) : Vec3 := (1 / (Vec3.norm v + TINY)) • v

/-- The shifted sharpness `lambda_val = lambda_val + TINY_NUMBER`
(`sg_render.py` line 63). -/
def hemi_lam (lambda_val : ℝ) : ℝ := lambda_val + TINY

/-- The fitted auxiliary parameter `t` of `hemisphere_int`
(`sg_render.py` lines 65-67). -/
def hemi_t (lambda_val : ℝ) : ℝ :=
  let inv_lambda_val := 1 / hemi_lam lambda_val
  Real.sqrt (hemi_lam lambda_val) * (1.6988 + 10.8438 * inv_lambda_val) /
    (1 + 6.2201 * inv_lambda_val + 10.2415 * inv_lambda_val * inv_lambda_val)

/-- The sigmoid-like mixing factor `s` of `hemisphere_int`
(`sg_render.py` lines 70-76): the `s1` branch is selected when
`cos_beta >= 0` via the 0/1 `mask`, the `s2` branch otherwise. -/
def hemi_s (lambda_val cos_beta : ℝ) : ℝ :=
  let t := hemi_t lambda_val
  let inv_a := Real.exp (-t)
  let mask : ℝ := if 0 ≤ cos_beta then 1 else 0
  let inv_b := Real.exp (-t * max cos_beta 0)
  let s1 := (1 - inv_a * inv_b) / (1 - inv_a + inv_b - inv_a * inv_b)
  let b := Real.exp (t * min cos_beta 0)
  let s2 := (b - inv_a) / ((1 - inv_a) * (b + 1))
  mask * s1 + (1 - mask) * s2

/-- The below-horizon term `A_b` of `hemisphere_int` (`sg_render.py` line 78). -/
def hemi_Ab (lambda_val : ℝ) : ℝ :=
  2 * π / hemi_lam lambda_val *
    (Real.exp (-hemi_lam lambda_val) - Real.exp (-2 * hemi_lam lambda_val))

/-- The above-horizon term `A_u` of `hemisphere_int` (`sg_render.py` line 79). -/
def hemi_Au (lambda_val : ℝ) : ℝ :=
  2 * π / hemi_lam lambda_val * (1 - Real.exp (-hemi_lam lambda_val))

/-- `hemisphere_int(lambda_val, cos_beta)` (`sg_render.py` lines 62-81). -/
def hemisphere_int (lambda_val cos_beta : ℝ) : ℝ :=
  hemi_Ab lambda_val * (1 - hemi_s lambda_val cos_beta) +
    hemi_Au lambda_val * hemi_s lambda_val cos_beta

/-- `lambda_trick(lobe1, lambda1, mu1, lobe2, lambda2, mu2)`
(`sg_render.py` lines 84-104), returning `(final_lobes, final_lambdas,
final_mus)`.  `rat` is the source's `ratio = lambda1 / lambda2`. -/
def lambda_trick (lobe1 : Vec3) (lambda1 mu1 : ℝ) (lobe2 : Vec3) (lambda2 mu2 : ℝ) :
    Vec3 × ℝ × ℝ :=
  let rat := lambda1 / lambda2
  let l1 := norm_axis lobe1
  let l2 := norm_axis lobe2
  let d := Vec3.dot l1 l2
  let tmp := min (Real.sqrt (rat * rat + 1 + 2 * rat * d)) (rat + 1)
  let lambda3 := lambda2 * tmp
  let lambda1_over_lambda3 := rat / tmp
  let lambda2_over_lambda3 := 1 / tmp
  let diff := lambda2 * (tmp - rat - 1)
  (lambda1_over_lambda3 • l1 + lambda2_over_lambda3 • l2, lambda3,
    mu1 * mu2 * Real.exp diff)

/-- One SG lobe of the environment light, a row of the `[M, 7]` tensor
`lgtSGs`: raw axis (columns 0-2), raw sharpness (column 3) and one channel of
the raw amplitude (columns 4-6). -/
abbrev SGLight := Vec3 × ℝ × ℝ

/-- The denominator of the lobe normalization in `render_envmap_sg`
(`sg_render.py` line 35): `torch.norm(lgtSGs[..., :3])`, with no epsilon. -/
def envmap_lobe_denom (sg : SGLight) : ℝ := Vec3.norm sg.1

/-- `render_envmap_sg(lgtSGs, viewdirs)` at one direction, one channel
(`sg_render.py` lines 26-42): sum over lobes of
`abs(mu) * exp(abs(lambda) * (dot(dir, lobe) - 1))`, where the lobe axis is
divided by its raw norm (line 35, without `TINY_NUMBER`). -/
def render_envmap_sg (lgtSGs : List SGLight) (viewdir : Vec3) : ℝ :=
  (lgtSGs.map fun sg =>
    let lobe := (1 / envmap_lobe_denom sg) • sg.1
    |sg.2.2| * Real.exp (|sg.2.1| * (Vec3.dot viewdir lobe - 1))).sum

/-- Polar angle of row `i` of the `compute_envmap` grid:
`torch.linspace(0, pi, H)` (`sg_render.py` line 15). -/
def gridPhi (H i : ℕ) : ℝ := i * (π / ((H : ℝ) - 1))

/-- Azimuth of column `j` of the `compute_envmap` grid:
`torch.linspace(pi, -pi, W)` (`sg_render.py` line 16). -/
def gridTheta (W j : ℕ) : ℝ := π - j * (2 * π / ((W : ℝ) - 1))

/-- The Cartesian direction of grid cell `(i, j)` (`sg_render.py` lines 17-19):
`(cos theta * sin phi, sin theta * sin phi, cos phi)`. -/
def gridDir (H W i j : ℕ) : Vec3 :=
  ⟨Real.cos (gridTheta W j) * Real.sin (gridPhi H i),
   Real.sin (gridTheta W j) * Real.sin (gridPhi H i),
   Real.cos (gridPhi H i)⟩

/-- `compute_envmap(lgtSGs, H, W)` (`sg_render.py` lines 9-23), full-sphere
grid, as a function from grid indices to the stored channel value. -/
def compute_envmap (lgtSGs : List SGLight) (H W : ℕ) : ℕ → ℕ → ℝ :=
  fun i j => render_envmap_sg lgtSGs (gridDir H W i j)

/-- `torch.atan2(y, x)`, with range `(-pi, pi]` and `atan2 0 0 = 0`, modelled
by the argument of the complex number `x + y i`. -/
def atan2 (y x : ℝ) : ℝ := Complex.arg (x + y * Complex.I)

/-- `render_envmap(envmap, viewdirs)` at one direction, one channel
(`sg_render.py` lines 45-59): equirectangular lookup
`phi = arccos(z) - TINY`, `theta = atan2(y, x)`, `query_y = 2 phi / pi - 1`,
`query_x = -theta / pi`, followed by `F.grid_sample` bilinear interpolation
with `align_corners=True` and zero padding for out-of-range taps. -/
def render_envmap (envmap : ℕ → ℕ → ℝ) (H W : ℕ) (viewdir : Vec3) : ℝ :=
  let phi := Real.arccos viewdir.z - TINY
  let theta := atan2 viewdir.y viewdir.x
  let query_y := phi / π * 2 - 1
  let query_x := -theta / π
  let ix := (query_x + 1) / 2 * ((W : ℝ) - 1)
  let iy := (query_y + 1) / 2 * ((H : ℝ) - 1)
  let x0 := ⌊ix⌋
  let y0 := ⌊iy⌋
  let fx := ix - x0
  let fy := iy - y0
  let P : ℤ → ℤ → ℝ := fun r c =>
    if 0 ≤ r ∧ r < (H : ℤ) ∧ 0 ≤ c ∧ c < (W : ℤ) then envmap r.toNat c.toNat else 0
  (1 - fy) * ((1 - fx) * P y0 x0 + fx * P y0 (x0 + 1)) +
    fy * ((1 - fx) * P (y0 + 1) x0 + fx * P (y0 + 1) (x0 + 1))

/-!
Visibility sampler (`get_diffuse_visibility`, lines 111-195, and
`get_specular_visibility`, lines 198-301).  The `torch.rand` draws are
explicit inputs `u ∈ [0,1)` (one pair per sample); the external predictor
`VisModel` is an arbitrary function from (point, direction) to a 2-class
score pair; the fixed `batch_size` of the source (2000000 resp. 10000000) is
the chunk-size parameter `c`.  The source flattens the (lobe, sample) axes
before querying the predictor; since chunking is proved value-invariant, the
per-lobe grouping used here is equivalent.  The `testing` branch of the
specular sampler (lines 285-292) only resets infinite float weights, which do
not arise over `ℝ`, and is omitted.
-/

/-- `torch.split(torch.arange(n), batch_size)` applied to a list: consecutive
chunks of size `c` (the last chunk may be shorter). -/
def splitBatches {α : Type} (c : ℕ) : List α → List (List α)
  | [] => []
  | a :: l =>
    if c = 0 then [a :: l]
    else List.take c (a :: l) :: splitBatches c (List.drop (c - 1) l)
  termination_by l => l.length
  decreasing_by simp [List.length_drop]; omega

/-- The batched predictor loop (`sg_render.py` lines 157-168 resp. 242-267):
the rows of `pred_vis` are filled chunk by chunk. -/
def batchedPredict {α β : Type} (c : ℕ) (f : α → β) (l : List α) : List β :=
  ((splitBatches c l).map (List.map f)).flatten

/-- The per-sample mask `cos_term = dot(normal, dir) > TINY_NUMBER`
(`sg_render.py` line 155 resp. 246). -/
def cosMask (normal dir : Vec3) : Bool := decide (TINY < Vec3.dot normal dir)

/-- Scatter of the masked predictions back into the zero-initialised `vis`
tensor (`vis = torch.zeros(...); vis[cos_term] = pred_vis`,
`sg_render.py` lines 175-176 resp. 280-281): masked positions take the next
prediction in order, unmasked positions stay `0`. -/
def scatterVis : List (Vec3 × Bool) → List ℝ → List ℝ
  | [], _ => []
  | (_, true) :: rest, v :: vs => v :: scatterVis rest vs
  | (_, true) :: rest, [] => 0 :: scatterVis rest []
  | (_, false) :: rest, vs => 0 :: scatterVis rest vs

/-- Reduction of a 2-class score to a visibility value
(`sg_render.py` lines 170-173): `torch.argmax(pred, dim=-1).float()` in
argmax mode (index 1 wins exactly when its score is strictly larger),
otherwise `torch.softmax(pred, dim=-1)[..., 1]`. -/
def classifyVis (argmax_vis : Bool) (score : ℝ × ℝ) : ℝ :=
  if argmax_vis then (if score.1 < score.2 then 1 else 0)
  else Real.exp score.2 / (Real.exp score.1 + Real.exp score.2)

/-- The inverted reduction of `get_specular_visibility` (`inv=True`,
`sg_render.py` lines 269-273): `torch.argmin` or
`torch.softmax(pred, dim=-1)[..., 0]`. -/
def classifyVisInv (argmax_vis : Bool) (score : ℝ × ℝ) : ℝ :=
  if argmax_vis then (if score.2 < score.1 then 1 else 0)
  else Real.exp score.1 / (Real.exp score.1 + Real.exp score.2)

/-- Masked, chunk-batched, scattered predictor evaluation shared by both
samplers (`sg_render.py` lines 155-176 resp. 246-281). -/
def visSamples (c : ℕ) (classify : ℝ × ℝ → ℝ) (VisModel : Vec3 → Vec3 → ℝ × ℝ)
    (point normal : Vec3) (dirs : List Vec3) : List ℝ :=
  let masked := dirs.filter (fun d => cosMask normal d)
  let scores := batchedPredict c (fun d => VisModel point d) masked
  scatterVis (dirs.map fun d => (d, cosMask normal d)) (scores.map classify)

/-- The per-sample visibility value the scattered tensor holds (used to state
the claims): `0` when `dot(normal, dir) ≤ TINY_NUMBER` — without consulting
`VisModel` — and the reduced prediction otherwise. -/
def sampleVis (classify : ℝ × ℝ → ℝ) (VisModel : Vec3 → Vec3 → ℝ × ℝ)
    (point normal dir : Vec3) : ℝ :=
  if cosMask normal dir then classify (VisModel point dir) else 0

/-- `z_axis` (`sg_render.py` lines 123-124 resp. 213-214). -/
def zAxis : Vec3 := ⟨0, 0, 1⟩

/-- Minimum of a nonempty list of reals (`tensor.min()`; the renderer never
reduces an empty tensor, so the `0` default is unused). -/
def listMin : List ℝ → ℝ
  | [] => 0
  | a :: t => t.foldl min a

/-- `r_phi_range = arccos((-0.95 * sg_range) / sharpness + 1)`
(`sg_render.py` line 134 resp. 223). -/
def r_phi_range (sg_range sharpness : ℝ) : ℝ :=
  Real.arccos ((-0.95 * sg_range) / sharpness + 1)

/-- `sg_range` of the diffuse sampler (`sg_render.py` lines 130-133):
the clamped minimum sharpness over all light lobes, capped at `thr`. -/
def sg_range_diffuse (lgtSGLambdas : List ℝ) (thr : ℝ) : ℝ :=
  min (listMin (lgtSGLambdas.map fun l => max l 1e-4)) thr

/-- One sampled direction of the diffuse sampler (`sg_render.py`
lines 126-145), from uniform draws `u.1, u.2 ∈ [0,1)`. -/
def diffuseSampleDir (lobe : Vec3) (lambda_raw sg_range : ℝ) (u : ℝ × ℝ) : Vec3 :=
  let light_dir := norm_axis lobe
  let U := norm_axis (Vec3.cross zAxis light_dir)
  let V := norm_axis (Vec3.cross light_dir U)
  let sharpness := max lambda_raw 1e-4
  let r_theta := u.1 * (2 * π)
  let r_phi := u.2 * r_phi_range sg_range sharpness
  (Real.cos r_theta * Real.sin r_phi) • U + (Real.sin r_theta * Real.sin r_phi) • V +
    Real.cos r_phi • light_dir

/-- Importance-weighted aggregation over samples shared by both samplers
(`sg_render.py` lines 180-183 resp. 283-294): weighted mean of the per-sample
visibilities, weight sum guarded by `TINY_NUMBER`. -/
def aggVis (vis weights : List ℝ) : ℝ :=
  ((List.zip vis weights).map fun p => p.1 * p.2).sum / (weights.sum + TINY)

/-- Aggregated diffuse visibility of one light lobe at one point
(`sg_render.py` lines 111-195): sample directions around the lobe axis,
masked chunk-batched predictor queries, SG-basis importance weights (note the
weight uses the raw `lgtSGLambdas`, line 180). -/
def diffuseMeanVis (c : ℕ) (VisModel : Vec3 → Vec3 → ℝ × ℝ) (point normal : Vec3)
    (lobe : Vec3) (lambda_raw sg_range : ℝ) (us : List (ℝ × ℝ)) (argmax_vis : Bool) : ℝ :=
  let light_dir := norm_axis lobe
  let dirs := us.map (diffuseSampleDir lobe lambda_raw sg_range)
  let vis := visSamples c (classifyVis argmax_vis) VisModel point normal dirs
  let weights := dirs.map fun d => Real.exp (lambda_raw * (Vec3.dot d light_dir - 1))
  aggVis vis weights

/-- `get_diffuse_visibility` for one point: one aggregated visibility per
light lobe, with `sg_range` computed from all lobes' sharpnesses
(`sg_render.py` lines 130-133). -/
def get_diffuse_visibility (c : ℕ) (VisModel : Vec3 → Vec3 → ℝ × ℝ) (point normal : Vec3)
    (lgtSGs : List (Vec3 × ℝ)) (us : List (List (ℝ × ℝ))) (thr : ℝ)
    (argmax_vis : Bool) : List ℝ :=
  let sg_range := sg_range_diffuse (lgtSGs.map Prod.snd) thr
  (List.zip lgtSGs us).map fun p =>
    diffuseMeanVis c VisModel point normal p.1.1 p.1.2 sg_range p.2 argmax_vis

/-- The reference (unbatched) aggregated diffuse visibility: every masked
sample queries the predictor directly, in one batch. -/
def diffuseMeanVisSpec (VisModel : Vec3 → Vec3 → ℝ × ℝ) (point normal : Vec3)
    (lobe : Vec3) (lambda_raw sg_range : ℝ) (us : List (ℝ × ℝ)) (argmax_vis : Bool) : ℝ :=
  let light_dir := norm_axis lobe
  let dirs := us.map (diffuseSampleDir lobe lambda_raw sg_range)
  let vis := dirs.map fun d => sampleVis (classifyVis argmax_vis) VisModel point normal d
  let weights := dirs.map fun d => Real.exp (lambda_raw * (Vec3.dot d light_dir - 1))
  aggVis vis weights

/-- One sampled direction of the specular sampler (`sg_render.py`
lines 207-240, single-view): the basis axis is the mirror-reflection
direction `ref_dir = -view + 2 * clamp(dot(n, v), min=0) * n`. -/
def specularSampleDir (normal viewdir : Vec3) (sg_range sharpness : ℝ) (u : ℝ × ℝ) : Vec3 :=
  let n_dot_v := max (Vec3.dot normal viewdir) 0
  let ref_dir := -viewdir + (2 * n_dot_v) • normal
  let U := norm_axis (Vec3.cross zAxis ref_dir)
  let V := norm_axis (Vec3.cross ref_dir U)
  let r_theta := u.1 * (2 * π)
  let r_phi := u.2 * r_phi_range sg_range sharpness
  (Real.cos r_theta * Real.sin r_phi) • U + (Real.sin r_theta * Real.sin r_phi) • V +
    Real.cos r_phi • ref_dir

/-- `get_specular_visibility` for one point, single-view
(`sg_render.py` lines 198-301): sharpness clipped into `[0.1, 50]`
(line 220), `sg_range` from the whole batch's clipped sharpnesses capped at 1
(line 222), weights from the clipped sharpness and the raw lobe axis
(line 283), optional inverted reduction (lines 269-278). -/
def get_specular_visibility (c : ℕ) (VisModel : Vec3 → Vec3 → ℝ × ℝ)
    (point normal viewdir : Vec3) (lobe : Vec3) (lambda_raw : ℝ) (batch_lambdas : List ℝ)
    (us : List (ℝ × ℝ)) (inv argmax_vis : Bool) : ℝ :=
  let sharpness := min (max lambda_raw 0.1) 50
  let sg_range := min (listMin (batch_lambdas.map fun l => min (max l 0.1) 50)) 1
  let dirs := us.map (specularSampleDir normal viewdir sg_range sharpness)
  let vis := visSamples c (if inv then classifyVisInv argmax_vis else classifyVis argmax_vis)
    VisModel point normal dirs
  let weights := dirs.map fun d => Real.exp (sharpness * (Vec3.dot d lobe - 1))
  aggVis vis weights

/-- The reference (unbatched) aggregated specular visibility. -/
def specularMeanVisSpec (VisModel : Vec3 → Vec3 → ℝ × ℝ)
    (point normal viewdir : Vec3) (lobe : Vec3) (lambda_raw : ℝ) (batch_lambdas : List ℝ)
    (us : List (ℝ × ℝ)) (inv argmax_vis : Bool) : ℝ :=
  let sharpness := min (max lambda_raw 0.1) 50
  let sg_range := min (listMin (batch_lambdas.map fun l => min (max l 0.1) 50)) 1
  let dirs := us.map (specularSampleDir normal viewdir sg_range sharpness)
  let vis := dirs.map fun d =>
    sampleVis (if inv then classifyVisInv argmax_vis else classifyVis argmax_vis)
      VisModel point normal d
  let weights := dirs.map fun d => Real.exp (sharpness * (Vec3.dot d lobe - 1))
  aggVis vis weights

/-- `mu_cos` (`sg_render.py` line 381). -/
def mu_cos : ℝ := 32.7080

/-- `lambda_cos` (`sg_render.py` line 382). -/
def lambda_cos : ℝ := 0.0315

/-- `alpha_cos` (`sg_render.py` line 383). -/
def alpha_cos : ℝ := 31.7003

/-- Inputs of one `render_with_sg` call (`sg_render.py` lines 343-355), for one
surface point and one color channel.  `light_vis` and `brdf_vis` are the
per-lobe aggregated visibilities: in the source they are produced by
`get_diffuse_visibility` / `get_specular_visibility` (modelled separately
below) or by the caller-supplied `diffuse_vis`, selected at lines 386-407;
their values enter the radiance computation only as real factors, which is how
they appear here.  `supervise` is the visibility-supervision penalty computed
with `kl_divergence` from `utils/utils.py` (not part of the SG renderer). -/
structure RenderCfg where
  lgtSGs : List SGLight
  normal : Vec3
  viewdir : Vec3
  specular_reflectance : ℝ
  roughness : ℝ
  diffuse_albedo : ℝ
  metallic : Option ℝ
  comp_vis : Bool
  lin_diff : Bool
  fun_spec : Bool
  indir_integral : Option ℝ
  light_vis : List ℝ
  brdf_vis : List ℝ
  supervise : ℝ

/-- One lobe's contribution inside `specular_rgb_fn` (`sg_render.py`
lines 414-492), before the sum over lobes and the final clamp. -/
def specular_term (cfg : RenderCfg) (rough : ℝ) (sg : SGLight) (bvis : ℝ) : ℝ :=
  let n := cfg.normal
  let v := cfg.viewdir
  let lgtSGLobe := (1 / (Vec3.norm sg.1 + TINY)) • sg.1
  let lgtSGLambda := |sg.2.1|
  let origin_mu := |sg.2.2|
  let inv_roughness_pow4 := 2 / (rough * rough * rough * rough)
  let brdfSGLambda := inv_roughness_pow4
  let brdfSGMu := inv_roughness_pow4 / π
  let v_dot_lobe := max (Vec3.dot n v) 0
  let warpBrdfSGLobe :=
    (1 / (Vec3.norm ((2 * v_dot_lobe) • n - v) + TINY)) • ((2 * v_dot_lobe) • n - v)
  let warpBrdfSGLambda := brdfSGLambda / (4 * v_dot_lobe + TINY)
  let new_half := (1 / (Vec3.norm (warpBrdfSGLobe + v) + TINY)) • (warpBrdfSGLobe + v)
  let v_dot_h := max (Vec3.dot v new_half) 0
  let Fr :=
    match cfg.metallic with
    | none => cfg.specular_reflectance + (1 - cfg.specular_reflectance) *
        (2 : ℝ) ^ (-(5.55473 * v_dot_h + 6.8316) * v_dot_h)
    | some m =>
        let spec_col := (1 - m) * cfg.specular_reflectance + cfg.diffuse_albedo * m
        spec_col + (1 - spec_col) * (2 : ℝ) ^ (-(5.55473 * v_dot_h + 6.8316) * v_dot_h)
  let dot1 := max (Vec3.dot warpBrdfSGLobe n) 0
  let dot2 := max (Vec3.dot v n) 0
  let k := (rough + 1) * (rough + 1) / 8
  let G1 := dot1 / (dot1 * (1 - k) + k + TINY)
  let G2 := dot2 / (dot2 * (1 - k) + k + TINY)
  let G := G1 * G2
  let Moi := Fr * G / (4 * dot1 * dot2 + TINY)
  let warpBrdfSGMu := brdfSGMu * Moi
  let lgtSGMu := origin_mu * bvis
  let f1 := lambda_trick lgtSGLobe lgtSGLambda lgtSGMu warpBrdfSGLobe warpBrdfSGLambda warpBrdfSGMu
  let p1 := lambda_trick n lambda_cos mu_cos f1.1 f1.2.1 f1.2.2
  p1.2.2 * hemisphere_int p1.2.1 (Vec3.dot p1.1 n) -
    f1.2.2 * alpha_cos * hemisphere_int f1.2.1 (Vec3.dot f1.1 n)

/-- The deferred specular evaluator `specular_rgb_fn(roughness)`
(`sg_render.py` lines 414-500): per-lobe terms summed over lobes, clamped to
be non-negative. -/
def specular_rgb_fn (cfg : RenderCfg) (rough : ℝ) : ℝ :=
  max (((List.zip cfg.lgtSGs cfg.brdf_vis).map fun p => specular_term cfg rough p.1 p.2).sum) 0

/-- One lobe's contribution to the diffuse radiance (`sg_render.py`
lines 506-528), before the sum over lobes and the clamp. -/
def diffuse_term (cfg : RenderCfg) (sg : SGLight) (vis : ℝ) : ℝ :=
  let lgtSGLobe := (1 / (Vec3.norm sg.1 + TINY)) • sg.1
  let lgtSGLambda := |sg.2.1|
  let origin_mu := |sg.2.2|
  let lgtSGMu := if cfg.comp_vis then origin_mu * vis else origin_mu
  let diffuse := cfg.diffuse_albedo / π
  let final_mu := if cfg.lin_diff then lgtSGMu else lgtSGMu * diffuse
  let p1 := lambda_trick cfg.normal lambda_cos mu_cos lgtSGLobe lgtSGLambda final_mu
  p1.2.2 * hemisphere_int p1.2.1 (Vec3.dot p1.1 cfg.normal) -
    final_mu * alpha_cos * hemisphere_int lgtSGLambda (Vec3.dot lgtSGLobe cfg.normal)

/-- The diffuse radiance of `render_with_sg` (`sg_render.py` lines 506-536):
per-lobe terms summed and clamped to be non-negative, then overridden by the
precomputed `indir_integral` when one is supplied (lines 532-536). -/
def diffuse_rgb (cfg : RenderCfg) : ℝ :=
  let base :=
    max (((List.zip cfg.lgtSGs cfg.light_vis).map fun p => diffuse_term cfg p.1 p.2).sum) 0
  match cfg.indir_integral with
  | none => base
  | some ii => if cfg.lin_diff then ii else ii * (cfg.diffuse_albedo / π)

/-- The diagnostic `vis_shadow` value (`sg_render.py` line 409):
amplitude-weighted mean visibility over lobes, denominator clamped to at least
`1e-4`. -/
def vis_shadow (cfg : RenderCfg) : ℝ :=
  ((List.zip cfg.lgtSGs cfg.light_vis).map fun p => p.2 * |p.1.2.2|).sum /
    max ((cfg.lgtSGs.map fun sg => |sg.2.2|).sum) 1e-4

/-- The `sg_specular_rgb` field of the returned dictionary: either the deferred
callable (`fun_spec` mode, line 547) or an evaluated value (line 559). -/
inductive SpecOut where
  | deferred (f : ℝ → ℝ)
  | value (v : ℝ)

/-- The dictionary returned by `render_with_sg` (`sg_render.py`
lines 544-565). -/
structure RenderOut where
  sg_rgb : ℝ
  sg_specular : SpecOut
  sg_diffuse_rgb : ℝ
  shadow : ℝ
  supervise : ℝ

/-- `render_with_sg` (`sg_render.py` lines 343-565), one point, one channel:
in `fun_spec` mode it returns the diffuse radiance as `sg_rgb` and the
deferred specular callable; otherwise it evaluates the specular radiance at
`cfg.roughness` and returns `specular_rgb + diffuse_rgb` as `sg_rgb`. -/
def render_with_sg (cfg : RenderCfg) : RenderOut :=
  let d := diffuse_rgb cfg
  if cfg.fun_spec then
    ⟨d, SpecOut.deferred (specular_rgb_fn cfg), d, vis_shadow cfg, cfg.supervise⟩
  else
    let s := specular_rgb_fn cfg cfg.roughness
    ⟨s + d, SpecOut.value s, d, vis_shadow cfg, cfg.supervise⟩

/-! ### Basic facts about the embedded definitions -/

theorem TINY_pos : (0 : ℝ) < TINY := by norm_num [TINY]

theorem hemi_lam_pos (l : ℝ) (h : 0 ≤ l) : 0 < hemi_lam l := by
  have := TINY_pos; unfold hemi_lam; linarith

theorem hemi_t_pos (l : ℝ) (h : 0 ≤ l) : 0 < hemi_t l := by
  have h1 := hemi_lam_pos l h
  have hinv : 0 < 1 / hemi_lam l := by positivity
  have hs : 0 < Real.sqrt (hemi_lam l) := Real.sqrt_pos.mpr h1
  simp only [hemi_t]
  positivity

/-- The mixing factor of the hemisphere integral lies in `[0, 1]` whenever
the sharpness is non-negative and the cosine argument is a genuine cosine. -/
theorem hemi_s_mem (l c : ℝ) (hl : 0 ≤ l) (hc1 : -1 ≤ c) (hc2 : c ≤ 1) :
    0 ≤ hemi_s l c ∧ hemi_s l c ≤ 1 := by
  have ht := hemi_t_pos l hl
  simp only [hemi_s]
  set t := hemi_t l with htdef
  have ha1 : 0 < Real.exp (-t) := Real.exp_pos _
  have ha2 : Real.exp (-t) < 1 := Real.exp_lt_one_iff.mpr (by linarith)
  by_cases hc : 0 ≤ c
  · rw [if_pos hc]
    have hmax : max c 0 = c := max_eq_left hc
    rw [hmax]
    have hb1 : 0 < Real.exp (-t * c) := Real.exp_pos _
    have hb2 : Real.exp (-t * c) ≤ 1 := Real.exp_le_one_iff.mpr (by nlinarith)
    have hab : Real.exp (-t) ≤ Real.exp (-t * c) := Real.exp_le_exp.mpr (by nlinarith)
    have hden : 0 < 1 - Real.exp (-t) + Real.exp (-t * c) - Real.exp (-t) * Real.exp (-t * c) := by
      nlinarith
    constructor
    · have h0 : 0 ≤ (1 - Real.exp (-t) * Real.exp (-t * c)) /
          (1 - Real.exp (-t) + Real.exp (-t * c) - Real.exp (-t) * Real.exp (-t * c)) :=
        div_nonneg (by nlinarith) (le_of_lt hden)
      nlinarith
    · have h1 : (1 - Real.exp (-t) * Real.exp (-t * c)) /
          (1 - Real.exp (-t) + Real.exp (-t * c) - Real.exp (-t) * Real.exp (-t * c)) ≤ 1 :=
        (div_le_one hden).mpr (by nlinarith)
      nlinarith
  · rw [if_neg hc]
    push_neg at hc
    have hmin : min c 0 = c := min_eq_left (le_of_lt hc)
    rw [hmin]
    have hb1 : 0 < Real.exp (t * c) := Real.exp_pos _
    have hb2 : Real.exp (t * c) < 1 := Real.exp_lt_one_iff.mpr (by nlinarith)
    have hab : Real.exp (-t) ≤ Real.exp (t * c) := Real.exp_le_exp.mpr (by nlinarith)
    have hden : 0 < (1 - Real.exp (-t)) * (Real.exp (t * c) + 1) := by nlinarith
    constructor
    · have h0 : 0 ≤ (Real.exp (t * c) - Real.exp (-t)) /
          ((1 - Real.exp (-t)) * (Real.exp (t * c) + 1)) :=
        div_nonneg (by nlinarith) (le_of_lt hden)
      nlinarith
    · have h1 : (Real.exp (t * c) - Real.exp (-t)) /
          ((1 - Real.exp (-t)) * (Real.exp (t * c) + 1)) ≤ 1 :=
        (div_le_one hden).mpr (by nlinarith)
      nlinarith

/-- C9: for every sharpness `lambda >= 0` and every `cos beta` in `[-1, 1]`,
the sigmoid-like mixing factor `s` computed inside `hemisphere_int` lies in
`[0, 1]`, so the returned value is the convex blend of the below-horizon term
`A_b` and the above-horizon term `A_u` with weight `s`. -/
theorem hemisphere_int_convex_blend (l c : ℝ) (hl : 0 ≤ l) (hc1 : -1 ≤ c) (hc2 : c ≤ 1) :
    (0 ≤ hemi_s l c ∧ hemi_s l c ≤ 1) ∧
      hemisphere_int l c = hemi_Ab l * (1 - hemi_s l c) + hemi_Au l * hemi_s l c :=
  ⟨hemi_s_mem l c hl hc1 hc2, rfl⟩

/-- Witness for C9 at `lambda = 1`, `cos beta = 1/2`. -/
theorem hemisphere_int_convex_blend_witness :
    (0 ≤ hemi_s 1 (1 / 2) ∧ hemi_s 1 (1 / 2) ≤ 1) ∧
      hemisphere_int 1 (1 / 2) =
        hemi_Ab 1 * (1 - hemi_s 1 (1 / 2)) + hemi_Au 1 * hemi_s 1 (1 / 2) :=
  hemisphere_int_convex_blend 1 (1 / 2) (by norm_num) (by norm_num) (by norm_num)

/-- At `cos beta = 1` the mixing factor is exactly `1`. -/
theorem hemi_s_at_one (l : ℝ) (hl : 0 ≤ l) : hemi_s l 1 = 1 := by
  have ht := hemi_t_pos l hl
  have ha1 : 0 < Real.exp (-hemi_t l) := Real.exp_pos _
  have ha2 : Real.exp (-hemi_t l) < 1 := Real.exp_lt_one_iff.mpr (by linarith)
  have hden : (1 : ℝ) - Real.exp (-hemi_t l) * Real.exp (-hemi_t l) ≠ 0 := by nlinarith
  simp only [hemi_s]
  rw [if_pos (by norm_num : (0 : ℝ) ≤ 1)]
  rw [max_eq_left (by norm_num : (0 : ℝ) ≤ 1)]
  rw [min_eq_right (by norm_num : (0 : ℝ) ≤ 1)]
  rw [mul_one]
  have hx : (1 : ℝ) - Real.exp (-hemi_t l) + Real.exp (-hemi_t l) -
      Real.exp (-hemi_t l) * Real.exp (-hemi_t l) =
      1 - Real.exp (-hemi_t l) * Real.exp (-hemi_t l) := by ring
  rw [hx, div_self hden]
  norm_num

/-- At `cos beta = 1` the hemisphere integral collapses to the above-horizon
term: the closed-form integral of the SG over the hemisphere centred on its
axis, evaluated at the shifted sharpness `lambda + TINY`. -/
theorem hemisphere_int_at_one (l : ℝ) (hl : 0 ≤ l) :
    hemisphere_int l 1 = 2 * π / (l + TINY) * (1 - Real.exp (-(l + TINY))) := by
  unfold hemisphere_int
  rw [hemi_s_at_one l hl]
  unfold hemi_Au hemi_lam
  ring

/-- At `cos beta = -1` the mixing factor is exactly `0`. -/
theorem hemi_s_at_neg_one (l : ℝ) : hemi_s l (-1) = 0 := by
  simp only [hemi_s]
  rw [if_neg (by norm_num : ¬(0 : ℝ) ≤ -1)]
  rw [min_eq_left (by norm_num : (-1 : ℝ) ≤ 0)]
  have : hemi_t l * -1 = -hemi_t l := by ring
  rw [this, sub_self, zero_div]
  ring

/-- At `cos beta = -1` the hemisphere integral collapses to the below-horizon
term `A_b`. -/
theorem hemisphere_int_at_neg_one (l : ℝ) :
    hemisphere_int l (-1) =
      2 * π / (l + TINY) * (Real.exp (-(l + TINY)) - Real.exp (-2 * (l + TINY))) := by
  unfold hemisphere_int
  rw [hemi_s_at_neg_one l]
  unfold hemi_Ab hemi_lam
  ring

/-- C1 (counterexample): at `lambda = 1` the hemisphere integral at
`cos beta = 1` differs from the closed-form full-sphere SG integral
`2 pi / lambda * (1 - exp(-2 lambda))` by more than `1`, so the two do not
agree within any numerical tolerance: the former is the integral over half
the sphere only. -/
theorem hemisphere_int_full_sphere_gap :
    1 < 2 * π / 1 * (1 - Real.exp (-2 * 1)) - hemisphere_int 1 1 := by
  rw [hemisphere_int_at_one 1 (by norm_num)]
  have h1T : (1 : ℝ) + TINY = 1.000001 := by norm_num [TINY]
  rw [h1T]
  have hpi : (3.141592 : ℝ) < π := Real.pi_gt_d6
  have hpi2 : π < 3.141593 := Real.pi_lt_d6
  have he1 : (2.7182818283 : ℝ) < Real.exp 1 := Real.exp_one_gt_d9
  have he2 : Real.exp 1 < 2.7182818286 := Real.exp_one_lt_d9
  have hexp2 : Real.exp (-2 : ℝ) < 0.13534 := by
    have h2 : Real.exp (2 : ℝ) = Real.exp 1 * Real.exp 1 := by
      rw [← Real.exp_add]; norm_num
    have hpos : (0 : ℝ) < Real.exp 2 := Real.exp_pos _
    have hgt : (7.389 : ℝ) < Real.exp 2 := by rw [h2]; nlinarith
    have : Real.exp (-2 : ℝ) = (Real.exp 2)⁻¹ := Real.exp_neg 2
    rw [this]
    rw [inv_lt_iff_one_lt_mul₀ hpos]
    nlinarith
  have hE : (0.3678785 : ℝ) < Real.exp (-1.000001 : ℝ) := by
    have hsplit : (-1.000001 : ℝ) = -1 + -0.000001 := by norm_num
    rw [hsplit, Real.exp_add]
    have hinv : Real.exp (-1 : ℝ) = (Real.exp 1)⁻¹ := Real.exp_neg 1
    have hlow : (0.36787944 : ℝ) < Real.exp (-1 : ℝ) := by
      rw [hinv]
      have hpos : (0 : ℝ) < Real.exp 1 := Real.exp_pos _
      rw [lt_inv_comm₀ (by norm_num) hpos]
      nlinarith
    have htiny : (0.999999 : ℝ) ≤ Real.exp (-0.000001 : ℝ) := by
      have := Real.add_one_le_exp (-0.000001 : ℝ)
      linarith
    nlinarith [Real.exp_pos (-0.000001 : ℝ), Real.exp_pos (-1 : ℝ)]
  have hE2 : Real.exp (-1.000001 : ℝ) < 1 := Real.exp_lt_one_iff.mpr (by norm_num)
  have hA : 2 * π / 1.000001 * (1 - Real.exp (-1.000001 : ℝ)) < 2 * π * 0.6321215 := by
    have hfac : 1 - Real.exp (-1.000001 : ℝ) < 0.6321215 := by linarith
    have hdd : 2 * π / 1.000001 ≤ 2 * π := by
      rw [div_le_iff₀ (by norm_num : (0 : ℝ) < 1.000001)]
      nlinarith [Real.pi_pos]
    have hdp : 0 < 2 * π / 1.000001 := by positivity
    nlinarith [Real.pi_pos]
  nlinarith [Real.pi_pos]

/-- C1 (amended): at `cos beta = 1` the hemisphere integral equals exactly the
closed-form upper-hemisphere SG integral `2 pi / (lambda + TINY) *
(1 - exp(-(lambda + TINY)))` (which approaches the full-sphere value only as
`lambda` grows), and at `cos beta = -1` the result tends to `0` as `lambda`
grows. -/
theorem hemisphere_int_boundary :
    (∀ l : ℝ, 0 < l →
        hemisphere_int l 1 = 2 * π / (l + TINY) * (1 - Real.exp (-(l + TINY)))) ∧
      Filter.Tendsto (fun l => hemisphere_int l (-1)) Filter.atTop (nhds 0) := by
  constructor
  · exact fun l hl => hemisphere_int_at_one l (le_of_lt hl)
  · have hshift : Filter.Tendsto (fun l : ℝ => l + TINY) Filter.atTop Filter.atTop :=
      Filter.tendsto_atTop_add_const_right _ TINY Filter.tendsto_id
    have hfrac : Filter.Tendsto (fun l : ℝ => 2 * π * (l + TINY)⁻¹) Filter.atTop (nhds 0) := by
      have := (tendsto_inv_atTop_zero).comp hshift
      have h2 := this.const_mul (2 * π)
      simpa using h2
    have hexp1 : Filter.Tendsto (fun l : ℝ => Real.exp (-(l + TINY))) Filter.atTop (nhds 0) := by
      exact Real.tendsto_exp_atBot.comp (Filter.tendsto_neg_atBot_iff.mpr hshift)
    have hexp2 : Filter.Tendsto (fun l : ℝ => Real.exp (-2 * (l + TINY)))
        Filter.atTop (nhds 0) := by
      have hm : Filter.Tendsto (fun l : ℝ => -2 * (l + TINY)) Filter.atTop Filter.atBot := by
        have h2 : Filter.Tendsto (fun l : ℝ => 2 * (l + TINY)) Filter.atTop Filter.atTop :=
          (hshift.const_mul_atTop (by norm_num : (0 : ℝ) < 2))
        have := Filter.tendsto_neg_atBot_iff.mpr h2
        simpa [neg_mul] using this
      exact Real.tendsto_exp_atBot.comp hm
    have hdiff : Filter.Tendsto
        (fun l : ℝ => Real.exp (-(l + TINY)) - Real.exp (-2 * (l + TINY)))
        Filter.atTop (nhds 0) := by
      have := hexp1.sub hexp2
      simpa using this
    have hmul := hfrac.mul hdiff
    rw [mul_zero] at hmul
    refine Filter.Tendsto.congr (fun l => ?_) hmul
    rw [hemisphere_int_at_neg_one l]
    rw [div_eq_mul_inv]

/-- Witness for C1 at `lambda = 1`. -/
theorem hemisphere_int_boundary_witness :
    hemisphere_int 1 1 = 2 * π / (1 + TINY) * (1 - Real.exp (-(1 + TINY))) :=
  hemisphere_int_boundary.1 1 one_pos

theorem Vec3.dot_smul_left (r : ℝ) (a b : Vec3) :
    Vec3.dot (r • a) b = r * Vec3.dot a b := by
  simp only [Vec3.dot, Vec3.smul_x, Vec3.smul_y, Vec3.smul_z]; ring

theorem Vec3.dot_smul_right (r : ℝ) (a b : Vec3) :
    Vec3.dot a (r • b) = r * Vec3.dot a b := by
  simp only [Vec3.dot, Vec3.smul_x, Vec3.smul_y, Vec3.smul_z]; ring

theorem Vec3.norm_of_unit {v : Vec3} (h : Vec3.dot v v = 1) : Vec3.norm v = 1 := by
  rw [Vec3.norm, h, Real.sqrt_one]

/-- Evaluation of `lambda_trick` on two identical unit lobes with equal
sharpness: because `norm_axis` divides by `norm + TINY`, the renormalised
lobes have squared norm `1 / (1 + TINY)^2 < 1`, so `tmp` is strictly below
the clamp value `ratio + 1 = 2`. -/
theorem lambda_trick_eval (L : Vec3) (lam mu1 mu2 : ℝ) (hL : Vec3.dot L L = 1)
    (hlam : 0 < lam) :
    (lambda_trick L lam mu1 L lam mu2).2.1 =
        lam * Real.sqrt (2 + 2 / ((1 + TINY) * (1 + TINY))) ∧
      (lambda_trick L lam mu1 L lam mu2).2.2 =
        mu1 * mu2 *
          Real.exp (lam * (Real.sqrt (2 + 2 / ((1 + TINY) * (1 + TINY))) - 2)) ∧
      2 - 1e-5 < Real.sqrt (2 + 2 / ((1 + TINY) * (1 + TINY))) ∧
      Real.sqrt (2 + 2 / ((1 + TINY) * (1 + TINY))) < 2 := by
  have hT : ((1 : ℝ) + TINY) * (1 + TINY) = 1.000001 * 1.000001 := by norm_num [TINY]
  have harg : (2 : ℝ) + 2 / ((1 + TINY) * (1 + TINY)) = 2 + 2 / (1.000001 * 1.000001) := by
    rw [hT]
  have hup : Real.sqrt (2 + 2 / ((1 + TINY) * (1 + TINY))) < 2 := by
    rw [harg, Real.sqrt_lt' (by norm_num : (0 : ℝ) < 2)]
    norm_num
  have hlo : 2 - 1e-5 < Real.sqrt (2 + 2 / ((1 + TINY) * (1 + TINY))) := by
    rw [harg, Real.lt_sqrt (by norm_num : (0 : ℝ) ≤ 2 - 1e-5)]
    norm_num
  have hrat : lam / lam = 1 := div_self (ne_of_gt hlam)
  have hnorm : norm_axis L = (1 / (1 + TINY)) • L := by
    rw [norm_axis, Vec3.norm_of_unit hL]
  have hdot : Vec3.dot (norm_axis L) (norm_axis L) = 1 / ((1 + TINY) * (1 + TINY)) := by
    rw [hnorm, Vec3.dot_smul_left, Vec3.dot_smul_right, hL]
    have hne : (1 : ℝ) + TINY ≠ 0 := by norm_num [TINY]
    field_simp
  have hargeq : lam / lam * (lam / lam) + 1 + 2 * (lam / lam) *
      Vec3.dot (norm_axis L) (norm_axis L) = 2 + 2 / ((1 + TINY) * (1 + TINY)) := by
    rw [hrat, hdot]; ring
  simp only [lambda_trick]
  rw [hargeq, hrat]
  rw [min_eq_left (by linarith : Real.sqrt (2 + 2 / ((1 + TINY) * (1 + TINY))) ≤ 1 + 1)]
  refine ⟨by ring, ?_, hlo, hup⟩
  have : lam * (Real.sqrt (2 + 2 / ((1 + TINY) * (1 + TINY))) - 1 - 1) =
      lam * (Real.sqrt (2 + 2 / ((1 + TINY) * (1 + TINY))) - 2) := by ring
  rw [this]

/-- C2 (counterexample): with both inputs the unit lobe `(0,0,1)` and
`lambda1 = lambda2 = 1`, `mu1 = mu2 = 1`, the returned sharpness is strictly
below `2 = 2 * lambda1` and the returned amplitude is strictly below
`1 = mu1 * mu2`: the `TINY` guard inside `norm_axis` makes the renormalised
lobes slightly shorter than unit, so `t < 2` and `exp(diff) < 1`. -/
theorem lambda_trick_counterexample :
    (lambda_trick ⟨0, 0, 1⟩ 1 1 ⟨0, 0, 1⟩ 1 1).2.1 < 2 ∧
      (lambda_trick ⟨0, 0, 1⟩ 1 1 ⟨0, 0, 1⟩ 1 1).2.2 < 1 := by
  have hL : Vec3.dot ⟨0, 0, 1⟩ ⟨0, 0, 1⟩ = 1 := by simp [Vec3.dot]
  obtain ⟨h1, h2, h3, h4⟩ := lambda_trick_eval ⟨0, 0, 1⟩ 1 1 1 hL one_pos
  constructor
  · rw [h1]; linarith
  · rw [h2]
    have : Real.exp (1 * (Real.sqrt (2 + 2 / ((1 + TINY) * (1 + TINY))) - 2)) < 1 :=
      Real.exp_lt_one_iff.mpr (by linarith)
    linarith

/-- C2 (amended): for equal sharpness `lambda > 0` and identical unit lobe
axes, `lambda_trick` returns `lambda3 = lambda * t0` and
`mu3 = mu1 * mu2 * exp(lambda * (t0 - 2))`, where
`t0 = sqrt(2 + 2/(1 + TINY)^2)` satisfies `2 - 1e-5 < t0 < 2`; the claimed
exact values `2 * lambda1` and `mu1 * mu2` are attained only in the limit
`TINY -> 0`. -/
theorem lambda_trick_equal_inputs (L : Vec3) (lam mu1 mu2 : ℝ) (hL : Vec3.dot L L = 1)
    (hlam : 0 < lam) :
    (lambda_trick L lam mu1 L lam mu2).2.1 =
        lam * Real.sqrt (2 + 2 / ((1 + TINY) * (1 + TINY))) ∧
      (lambda_trick L lam mu1 L lam mu2).2.2 =
        mu1 * mu2 *
          Real.exp (lam * (Real.sqrt (2 + 2 / ((1 + TINY) * (1 + TINY))) - 2)) ∧
      2 - 1e-5 < Real.sqrt (2 + 2 / ((1 + TINY) * (1 + TINY))) ∧
      Real.sqrt (2 + 2 / ((1 + TINY) * (1 + TINY))) < 2 :=
  lambda_trick_eval L lam mu1 mu2 hL hlam

/-- Witness for C2 at lobe `(1,0,0)`, `lambda = 2`, `mu1 = 3`, `mu2 = 5`. -/
theorem lambda_trick_equal_inputs_witness :
    (lambda_trick ⟨1, 0, 0⟩ 2 3 ⟨1, 0, 0⟩ 2 5).2.1 =
        2 * Real.sqrt (2 + 2 / ((1 + TINY) * (1 + TINY))) ∧
      (lambda_trick ⟨1, 0, 0⟩ 2 3 ⟨1, 0, 0⟩ 2 5).2.2 =
        3 * 5 * Real.exp (2 * (Real.sqrt (2 + 2 / ((1 + TINY) * (1 + TINY))) - 2)) ∧
      2 - 1e-5 < Real.sqrt (2 + 2 / ((1 + TINY) * (1 + TINY))) ∧
      Real.sqrt (2 + 2 / ((1 + TINY) * (1 + TINY))) < 2 :=
  lambda_trick_equal_inputs ⟨1, 0, 0⟩ 2 3 5 (by simp [Vec3.dot]) (by norm_num)

/-- C7 (counterexample): the lobe normalization inside `render_envmap_sg`
(`sg_render.py` line 35) divides by the raw norm with no epsilon added; at a
zero lobe axis that denominator is `0`, strictly below the `TINY` guard the
claim asserts for every division. -/
theorem envmap_division_unguarded :
    envmap_lobe_denom (⟨0, 0, 0⟩, 1, 1) = 0 ∧ (0 : ℝ) < TINY := by
  refine ⟨?_, TINY_pos⟩
  show Vec3.norm ⟨0, 0, 0⟩ = 0
  rw [Vec3.norm]
  simp [Vec3.dot]

/-- C7 (amended): the divisions of `norm_axis`, of `hemisphere_int`'s
`1 / lambda` terms and of the visibility weight-sum aggregation all have
denominators bounded below by `TINY = 1e-6`; the mixing-factor denominators
inside `hemisphere_int` carry no epsilon but are strictly positive whenever
`lambda >= 0`; the lobe normalization of `render_envmap_sg` (line 35),
however, is unguarded and its denominator vanishes at a zero lobe axis. -/
theorem division_guards :
    (∀ v : Vec3, TINY ≤ Vec3.norm v + TINY) ∧
      (∀ l : ℝ, 0 ≤ l → TINY ≤ hemi_lam l) ∧
      (∀ ws : List ℝ, (∀ w ∈ ws, 0 ≤ w) → TINY ≤ ws.sum + TINY) ∧
      (∀ l c : ℝ, 0 ≤ l →
        0 < 1 - Real.exp (-hemi_t l) + Real.exp (-hemi_t l * max c 0) -
            Real.exp (-hemi_t l) * Real.exp (-hemi_t l * max c 0) ∧
          0 < (1 - Real.exp (-hemi_t l)) * (Real.exp (hemi_t l * min c 0) + 1)) ∧
      envmap_lobe_denom (⟨0, 0, 0⟩, 1, 1) = 0 := by
  refine ⟨?_, ?_, ?_, ?_, ?_⟩
  · intro v
    have := Vec3.norm_nonneg v
    linarith
  · intro l hl
    unfold hemi_lam
    linarith
  · intro ws hws
    have := List.sum_nonneg hws
    linarith
  · intro l c hl
    have ht := hemi_t_pos l hl
    have ha1 : 0 < Real.exp (-hemi_t l) := Real.exp_pos _
    have ha2 : Real.exp (-hemi_t l) < 1 := Real.exp_lt_one_iff.mpr (by linarith)
    have hb1 : 0 < Real.exp (-hemi_t l * max c 0) := Real.exp_pos _
    have hb2 : 0 < Real.exp (hemi_t l * min c 0) := Real.exp_pos _
    constructor
    · nlinarith
    · nlinarith
  · show Vec3.norm ⟨0, 0, 0⟩ = 0
    rw [Vec3.norm]
    simp [Vec3.dot]

/-- Witness for C7: concrete instances of the guarded denominators and the
vanishing unguarded one. -/
theorem division_guards_witness :
    TINY ≤ Vec3.norm ⟨3, 0, 4⟩ + TINY ∧ TINY ≤ hemi_lam 2 ∧
      TINY ≤ ([1, 2] : List ℝ).sum + TINY ∧
      envmap_lobe_denom (⟨0, 0, 0⟩, 1, 1) = 0 :=
  ⟨division_guards.1 ⟨3, 0, 4⟩, division_guards.2.1 2 (by norm_num),
    division_guards.2.2.1 [1, 2] (by intro w hw; simp at hw; rcases hw with h | h <;> norm_num [h]),
    division_guards.2.2.2.2⟩

/-- The `sg_diffuse_rgb` field returned by `render_with_sg` is the value of
`diffuse_rgb` in both output shapes. -/
theorem render_with_sg_diffuse (cfg : RenderCfg) :
    (render_with_sg cfg).sg_diffuse_rgb = diffuse_rgb cfg := by
  unfold render_with_sg
  by_cases h : cfg.fun_spec <;> simp [h]

/-- C3 (counterexample): when a negative precomputed indirect irradiance
integral is supplied, the returned diffuse radiance is negative — the
`indir_integral` override (lines 532-536) is applied after the clamp and is
itself unclamped.  All other inputs are valid: unit normal and view
direction, `albedo = 1/2`, `roughness = 1`. -/
theorem render_diffuse_negative_counterexample :
    (render_with_sg ⟨[(⟨0, 0, 1⟩, 1, 1)], ⟨0, 0, 1⟩, ⟨0, 0, 1⟩, 2 / 100, 1, 1 / 2, none,
        true, false, true, some (-1), [1], [1], 0⟩).sg_diffuse_rgb < 0 := by
  rw [render_with_sg_diffuse]
  unfold diffuse_rgb
  simp only []
  norm_num
  positivity

/-- C3 (amended): for valid inputs (`roughness > 0`, `albedo ∈ [0,1]`), the
returned diffuse radiance and the specular radiance (at any roughness, hence
in deferred mode too) are non-negative in every mode, provided the
caller-supplied indirect irradiance integral, when present, is itself
non-negative; without that extra hypothesis the property fails (see the
counterexample). -/
theorem render_radiance_nonneg (cfg : RenderCfg) (rough : ℝ)
    (halb1 : 0 ≤ cfg.diffuse_albedo) (halb2 : cfg.diffuse_albedo ≤ 1)
    (hrough : 0 < cfg.roughness)
    (hindir : ∀ q ∈ cfg.indir_integral, 0 ≤ q) :
    0 ≤ (render_with_sg cfg).sg_diffuse_rgb ∧ 0 ≤ specular_rgb_fn cfg rough := by
  constructor
  · rw [render_with_sg_diffuse]
    unfold diffuse_rgb
    cases hii : cfg.indir_integral with
    | none => simp only []; exact le_max_right _ _
    | some q =>
        have hq : 0 ≤ q := hindir q (by rw [hii]; rfl)
        simp only []
        by_cases hld : cfg.lin_diff
        · simp [hld, hq]
        · simp only [hld, if_false]
          have halbpi : 0 ≤ cfg.diffuse_albedo / π := div_nonneg halb1 Real.pi_pos.le
          exact mul_nonneg hq halbpi
  · unfold specular_rgb_fn
    exact le_max_right _ _

/-- Witness for C3 with no indirect integral, one light lobe, full
visibility. -/
theorem render_radiance_nonneg_witness :
    0 ≤ (render_with_sg ⟨[(⟨0, 0, 1⟩, 10, 1)], ⟨0, 0, 1⟩, ⟨0, 0, 1⟩, 2 / 100, 1 / 2, 1 / 2,
        none, true, false, false, none, [1], [1], 0⟩).sg_diffuse_rgb ∧
      0 ≤ specular_rgb_fn ⟨[(⟨0, 0, 1⟩, 10, 1)], ⟨0, 0, 1⟩, ⟨0, 0, 1⟩, 2 / 100, 1 / 2, 1 / 2,
        none, true, false, false, none, [1], [1], 0⟩ (1 / 2) :=
  render_radiance_nonneg _ _ (by norm_num) (by norm_num) (by norm_num)
    (by intro q hq; simp at hq)

/-- C10: in deferred-specular mode (`fun_spec` true) the returned `sg_rgb`
is exactly the returned `sg_diffuse_rgb` and `sg_specular_rgb` is the
deferred callable taking roughness; with `fun_spec` false, `sg_rgb` is the
sum of `sg_diffuse_rgb` and the evaluated `sg_specular_rgb`. -/
theorem render_with_sg_fun_spec (cfg : RenderCfg) :
    (cfg.fun_spec = true →
        (render_with_sg cfg).sg_rgb = (render_with_sg cfg).sg_diffuse_rgb ∧
          (render_with_sg cfg).sg_specular = SpecOut.deferred (specular_rgb_fn cfg)) ∧
      (cfg.fun_spec = false →
        (render_with_sg cfg).sg_rgb =
            (render_with_sg cfg).sg_diffuse_rgb + specular_rgb_fn cfg cfg.roughness ∧
          (render_with_sg cfg).sg_specular =
            SpecOut.value (specular_rgb_fn cfg cfg.roughness)) := by
  constructor
  · intro h
    unfold render_with_sg
    simp [h]
  · intro h
    unfold render_with_sg
    simp [h, add_comm]

/-- Witness for C10: both modes at a concrete configuration. -/
theorem render_with_sg_fun_spec_witness :
    ((render_with_sg ⟨[(⟨0, 0, 1⟩, 1, 1)], ⟨0, 0, 1⟩, ⟨0, 0, 1⟩, 2 / 100, 1, 1 / 2, none,
          true, false, true, none, [1], [1], 0⟩).sg_rgb =
        (render_with_sg ⟨[(⟨0, 0, 1⟩, 1, 1)], ⟨0, 0, 1⟩, ⟨0, 0, 1⟩, 2 / 100, 1, 1 / 2, none,
          true, false, true, none, [1], [1], 0⟩).sg_diffuse_rgb ∧
        (render_with_sg ⟨[(⟨0, 0, 1⟩, 1, 1)], ⟨0, 0, 1⟩, ⟨0, 0, 1⟩, 2 / 100, 1, 1 / 2, none,
          true, false, true, none, [1], [1], 0⟩).sg_specular =
          SpecOut.deferred (specular_rgb_fn ⟨[(⟨0, 0, 1⟩, 1, 1)], ⟨0, 0, 1⟩, ⟨0, 0, 1⟩,
            2 / 100, 1, 1 / 2, none, true, false, true, none, [1], [1], 0⟩)) ∧
      ((render_with_sg ⟨[(⟨0, 0, 1⟩, 1, 1)], ⟨0, 0, 1⟩, ⟨0, 0, 1⟩, 2 / 100, 1, 1 / 2, none,
          true, false, false, none, [1], [1], 0⟩).sg_rgb =
        (render_with_sg ⟨[(⟨0, 0, 1⟩, 1, 1)], ⟨0, 0, 1⟩, ⟨0, 0, 1⟩, 2 / 100, 1, 1 / 2, none,
          true, false, false, none, [1], [1], 0⟩).sg_diffuse_rgb +
          specular_rgb_fn ⟨[(⟨0, 0, 1⟩, 1, 1)], ⟨0, 0, 1⟩, ⟨0, 0, 1⟩, 2 / 100, 1, 1 / 2, none,
            true, false, false, none, [1], [1], 0⟩ 1) :=
  ⟨(render_with_sg_fun_spec _).1 rfl,
    ((render_with_sg_fun_spec _).2 rfl).1⟩

/-! ### Visibility sampler: chunking and bounds -/

theorem splitBatches_flatten {α : Type} (c : ℕ) :
    ∀ l : List α, (splitBatches c l).flatten = l
  | [] => by simp [splitBatches]
  | a :: l => by
    rw [splitBatches]
    by_cases h : c = 0
    · simp [h]
    · rw [if_neg h]
      rw [List.flatten_cons]
      rw [splitBatches_flatten c (List.drop (c - 1) l)]
      cases c with
      | zero => exact absurd rfl h
      | succ n =>
        rw [List.take_succ_cons, Nat.succ_sub_one, List.cons_append, List.take_append_drop]
  termination_by l => l.length
  decreasing_by simp [List.length_drop]; omega

/-- Filling the prediction tensor chunk by chunk gives exactly the map of the
predictor over all masked inputs, whatever the chunk size. -/
theorem batchedPredict_eq_map {α β : Type} (c : ℕ) (f : α → β) (l : List α) :
    batchedPredict c f l = l.map f := by
  unfold batchedPredict
  rw [← List.map_flatten, splitBatches_flatten]

theorem scatterVis_map_filter (mask : Vec3 → Bool) (g : Vec3 → ℝ) (dirs : List Vec3) :
    scatterVis (dirs.map fun d => (d, mask d)) ((dirs.filter mask).map g) =
      dirs.map fun d => if mask d then g d else 0 := by
  induction dirs with
  | nil => rfl
  | cons d rest ih =>
    by_cases h : mask d
    · simp only [List.map_cons, List.filter_cons, h, if_pos, if_true, scatterVis, ih]
    · simp only [List.map_cons, List.filter_cons, h, if_false, Bool.false_eq_true,
        scatterVis, ih]

/-- The scattered visibility tensor holds exactly the per-sample value
`sampleVis` at every position, for every chunk size. -/
theorem visSamples_eq (c : ℕ) (classify : ℝ × ℝ → ℝ) (VisModel : Vec3 → Vec3 → ℝ × ℝ)
    (point normal : Vec3) (dirs : List Vec3) :
    visSamples c classify VisModel point normal dirs =
      dirs.map fun d => sampleVis classify VisModel point normal d := by
  unfold visSamples sampleVis
  simp only [batchedPredict_eq_map, List.map_map]
  simpa [Function.comp] using
    scatterVis_map_filter (fun d => cosMask normal d)
      (fun d => classify (VisModel point d)) dirs

theorem classifyVis_mem (a : Bool) (s : ℝ × ℝ) :
    0 ≤ classifyVis a s ∧ classifyVis a s ≤ 1 := by
  cases a with
  | true => by_cases h2 : s.1 < s.2 <;> simp [classifyVis, h2]
  | false =>
    simp only [classifyVis, Bool.false_eq_true, if_false]
    have h1 : 0 < Real.exp s.1 := Real.exp_pos _
    have h2 : 0 < Real.exp s.2 := Real.exp_pos _
    constructor
    · positivity
    · rw [div_le_one (by linarith)]
      linarith

theorem classifyVisInv_mem (a : Bool) (s : ℝ × ℝ) :
    0 ≤ classifyVisInv a s ∧ classifyVisInv a s ≤ 1 := by
  cases a with
  | true => by_cases h2 : s.2 < s.1 <;> simp [classifyVisInv, h2]
  | false =>
    simp only [classifyVisInv, Bool.false_eq_true, if_false]
    have h1 : 0 < Real.exp s.1 := Real.exp_pos _
    have h2 : 0 < Real.exp s.2 := Real.exp_pos _
    constructor
    · positivity
    · rw [div_le_one (by linarith)]
      linarith

theorem sampleVis_mem (classify : ℝ × ℝ → ℝ) (hcls : ∀ s, 0 ≤ classify s ∧ classify s ≤ 1)
    (VisModel : Vec3 → Vec3 → ℝ × ℝ) (point normal d : Vec3) :
    0 ≤ sampleVis classify VisModel point normal d ∧
      sampleVis classify VisModel point normal d ≤ 1 := by
  unfold sampleVis
  by_cases h : cosMask normal d
  · simp only [h, if_true]
    exact hcls _
  · simp only [h, if_false, Bool.false_eq_true]
    norm_num

theorem zip_mul_sum_nonneg :
    ∀ (vis ws : List ℝ), (∀ v ∈ vis, 0 ≤ v) → (∀ w ∈ ws, 0 ≤ w) →
      0 ≤ ((List.zip vis ws).map fun p => p.1 * p.2).sum
  | [], ws, _, _ => by simp
  | v :: vt, [], _, _ => by simp
  | v :: vt, w :: wt, hv, hw => by
    simp only [List.zip_cons_cons, List.map_cons, List.sum_cons]
    have h1 : 0 ≤ v := hv v (List.mem_cons_self v vt)
    have h2 : 0 ≤ w := hw w (List.mem_cons_self w wt)
    have h3 := zip_mul_sum_nonneg vt wt (fun x hx => hv x (List.mem_cons_of_mem _ hx))
      (fun x hx => hw x (List.mem_cons_of_mem _ hx))
    nlinarith

theorem zip_mul_sum_le :
    ∀ (vis ws : List ℝ), (∀ v ∈ vis, v ≤ 1) → (∀ w ∈ ws, 0 ≤ w) →
      ((List.zip vis ws).map fun p => p.1 * p.2).sum ≤ ws.sum
  | [], ws, _, hw => by
    simpa using List.sum_nonneg hw
  | v :: vt, [], _, _ => by simp
  | v :: vt, w :: wt, hv, hw => by
    simp only [List.zip_cons_cons, List.map_cons, List.sum_cons]
    have h1 : v ≤ 1 := hv v (List.mem_cons_self v vt)
    have h2 : 0 ≤ w := hw w (List.mem_cons_self w wt)
    have h3 := zip_mul_sum_le vt wt (fun x hx => hv x (List.mem_cons_of_mem _ hx))
      (fun x hx => hw x (List.mem_cons_of_mem _ hx))
    nlinarith

/-- The importance-weighted aggregation stays in `[0, 1]` whenever the
per-sample visibilities are in `[0, 1]` and the weights are non-negative. -/
theorem aggVis_mem (vis ws : List ℝ) (hv : ∀ v ∈ vis, 0 ≤ v ∧ v ≤ 1)
    (hw : ∀ w ∈ ws, 0 ≤ w) : 0 ≤ aggVis vis ws ∧ aggVis vis ws ≤ 1 := by
  unfold aggVis
  have hsum : 0 ≤ ws.sum := List.sum_nonneg hw
  have hden : 0 < ws.sum + TINY := by have := TINY_pos; linarith
  constructor
  · exact div_nonneg (zip_mul_sum_nonneg vis ws (fun v h => (hv v h).1) hw) (le_of_lt hden)
  · rw [div_le_one hden]
    have := zip_mul_sum_le vis ws (fun v h => (hv v h).2) hw
    have := TINY_pos
    linarith

theorem exp_weights_nonneg (dirs : List Vec3) (f : Vec3 → ℝ) :
    ∀ w ∈ dirs.map fun d => Real.exp (f d), 0 ≤ w := by
  intro w hw
  obtain ⟨d, _, rfl⟩ := List.mem_map.mp hw
  exact (Real.exp_pos _).le

theorem diffuseMeanVis_mem (c : ℕ) (VisModel : Vec3 → Vec3 → ℝ × ℝ) (point normal : Vec3)
    (lobe : Vec3) (lambda_raw sg_range : ℝ) (us : List (ℝ × ℝ)) (am : Bool) :
    0 ≤ diffuseMeanVis c VisModel point normal lobe lambda_raw sg_range us am ∧
      diffuseMeanVis c VisModel point normal lobe lambda_raw sg_range us am ≤ 1 := by
  unfold diffuseMeanVis
  simp only [visSamples_eq]
  apply aggVis_mem
  · intro v hv
    obtain ⟨d, _, rfl⟩ := List.mem_map.mp hv
    exact sampleVis_mem _ (classifyVis_mem am) VisModel point normal d
  · exact exp_weights_nonneg _ _

theorem diffuseMeanVis_eq_spec (c : ℕ) (VisModel : Vec3 → Vec3 → ℝ × ℝ)
    (point normal lobe : Vec3) (lambda_raw sg_range : ℝ) (us : List (ℝ × ℝ)) (am : Bool) :
    diffuseMeanVis c VisModel point normal lobe lambda_raw sg_range us am =
      diffuseMeanVisSpec VisModel point normal lobe lambda_raw sg_range us am := by
  unfold diffuseMeanVis diffuseMeanVisSpec
  simp only [visSamples_eq]

theorem specularMeanVis_eq_spec (c : ℕ) (VisModel : Vec3 → Vec3 → ℝ × ℝ)
    (point normal viewdir lobe : Vec3) (lambda_raw : ℝ) (batch_lambdas : List ℝ)
    (us : List (ℝ × ℝ)) (inv am : Bool) :
    get_specular_visibility c VisModel point normal viewdir lobe lambda_raw batch_lambdas
        us inv am =
      specularMeanVisSpec VisModel point normal viewdir lobe lambda_raw batch_lambdas
        us inv am := by
  unfold get_specular_visibility specularMeanVisSpec
  simp only [visSamples_eq]

/-- C8: for every chunk size, for fixed sample directions and a deterministic
predictor, the chunk-batched samplers return exactly the single-batch
(reference) aggregation: chunk boundaries never change the result. -/
theorem visibility_chunking_invariant :
    (∀ (c : ℕ) (VisModel : Vec3 → Vec3 → ℝ × ℝ) (point normal : Vec3)
        (lgtSGs : List (Vec3 × ℝ)) (us : List (List (ℝ × ℝ))) (thr : ℝ) (am : Bool),
        get_diffuse_visibility c VisModel point normal lgtSGs us thr am =
          (List.zip lgtSGs us).map fun p =>
            diffuseMeanVisSpec VisModel point normal p.1.1 p.1.2
              (sg_range_diffuse (lgtSGs.map Prod.snd) thr) p.2 am) ∧
      ∀ (c : ℕ) (VisModel : Vec3 → Vec3 → ℝ × ℝ) (point normal viewdir lobe : Vec3)
        (lambda_raw : ℝ) (batch_lambdas : List ℝ) (us : List (ℝ × ℝ)) (inv am : Bool),
        get_specular_visibility c VisModel point normal viewdir lobe lambda_raw
            batch_lambdas us inv am =
          specularMeanVisSpec VisModel point normal viewdir lobe lambda_raw
            batch_lambdas us inv am := by
  constructor
  · intro c VisModel point normal lgtSGs us thr am
    unfold get_diffuse_visibility
    simp only [diffuseMeanVis_eq_spec]
  · intro c VisModel point normal viewdir lobe lambda_raw batch_lambdas us inv am
    exact specularMeanVis_eq_spec c VisModel point normal viewdir lobe lambda_raw
      batch_lambdas us inv am

theorem specular_classify_mem (inv am : Bool) (s : ℝ × ℝ) :
    0 ≤ (if inv then classifyVisInv am else classifyVis am) s ∧
      (if inv then classifyVisInv am else classifyVis am) s ≤ 1 := by
  by_cases h : inv
  · simp only [h, if_true]
    exact classifyVisInv_mem am s
  · simp only [h, Bool.false_eq_true, if_false]
    exact classifyVis_mem am s

theorem get_specular_visibility_mem (c : ℕ) (VisModel : Vec3 → Vec3 → ℝ × ℝ)
    (point normal viewdir lobe : Vec3) (lambda_raw : ℝ) (batch_lambdas : List ℝ)
    (us : List (ℝ × ℝ)) (inv am : Bool) :
    0 ≤ get_specular_visibility c VisModel point normal viewdir lobe lambda_raw
          batch_lambdas us inv am ∧
      get_specular_visibility c VisModel point normal viewdir lobe lambda_raw
          batch_lambdas us inv am ≤ 1 := by
  unfold get_specular_visibility
  simp only [visSamples_eq]
  apply aggVis_mem
  · intro v hv
    obtain ⟨d, _, rfl⟩ := List.mem_map.mp hv
    exact sampleVis_mem _ (specular_classify_mem inv am) VisModel point normal d
  · exact exp_weights_nonneg _ _

theorem get_diffuse_visibility_mem (c : ℕ) (VisModel : Vec3 → Vec3 → ℝ × ℝ)
    (point normal : Vec3) (lgtSGs : List (Vec3 × ℝ)) (us : List (List (ℝ × ℝ)))
    (thr : ℝ) (am : Bool) :
    ∀ v ∈ get_diffuse_visibility c VisModel point normal lgtSGs us thr am,
      0 ≤ v ∧ v ≤ 1 := by
  intro v hv
  simp only [get_diffuse_visibility] at hv
  obtain ⟨q, _, rfl⟩ := List.mem_map.mp hv
  exact diffuseMeanVis_mem c VisModel point normal q.1.1 q.1.2 _ q.2 am

/-- `sampleVis` at a masked-out direction is `0`, without consulting the
predictor. -/
theorem sampleVis_masked (classify : ℝ × ℝ → ℝ) (VisModel VisModel' : Vec3 → Vec3 → ℝ × ℝ)
    (point normal d : Vec3) (h : Vec3.dot normal d ≤ TINY) :
    sampleVis classify VisModel point normal d = 0 ∧
      sampleVis classify VisModel point normal d =
        sampleVis classify VisModel' point normal d := by
  have hmask : cosMask normal d = false := by
    unfold cosMask
    rw [decide_eq_false_iff_not]
    exact not_lt.mpr h
  unfold sampleVis
  rw [hmask]
  simp

/-- With both uniform draws equal to `0` the sampled direction degenerates to
the (renormalised) lobe axis. -/
theorem diffuseSampleDir_zero (L : Vec3) (lr sr : ℝ) :
    diffuseSampleDir L lr sr (0, 0) = norm_axis L := by
  unfold diffuseSampleDir
  simp only [zero_mul, Real.cos_zero, Real.sin_zero, mul_zero, one_mul]
  ext <;> simp

/-- C4 (counterexample): in argmax mode with a predictor that always reports
the visible class, two samples drawn at the lobe axis give per-sample
visibilities `1`, yet the aggregated visibility returned in the sampler's
output list is strictly between `0` and `1` (the `TINY` guard in the weight
sum keeps it below `1`), so the aggregate is not exactly in `{0, 1}`. -/
theorem diffuse_argmax_vis_not_binary :
    0 < diffuseMeanVis 1 (fun _ _ => (0, 1)) ⟨0, 0, 0⟩ ⟨1, 0, 0⟩ ⟨1, 0, 0⟩ 1
        (sg_range_diffuse [1] 1) [(0, 0), (0, 0)] true ∧
      diffuseMeanVis 1 (fun _ _ => (0, 1)) ⟨0, 0, 0⟩ ⟨1, 0, 0⟩ ⟨1, 0, 0⟩ 1
        (sg_range_diffuse [1] 1) [(0, 0), (0, 0)] true < 1 ∧
      get_diffuse_visibility 1 (fun _ _ => (0, 1)) ⟨0, 0, 0⟩ ⟨1, 0, 0⟩ [(⟨1, 0, 0⟩, 1)]
          [[(0, 0), (0, 0)]] 1 true =
        [diffuseMeanVis 1 (fun _ _ => (0, 1)) ⟨0, 0, 0⟩ ⟨1, 0, 0⟩ ⟨1, 0, 0⟩ 1
          (sg_range_diffuse [1] 1) [(0, 0), (0, 0)] true] := by
  have hnorm1 : Vec3.norm ⟨1, 0, 0⟩ = 1 := by
    rw [Vec3.norm]
    have : Vec3.dot ⟨1, 0, 0⟩ ⟨1, 0, 0⟩ = 1 := by simp [Vec3.dot]
    rw [this, Real.sqrt_one]
  have hna : norm_axis ⟨1, 0, 0⟩ = ⟨1 / (1 + TINY), 0, 0⟩ := by
    rw [norm_axis, hnorm1]
    ext <;> simp
  have hd : diffuseSampleDir ⟨1, 0, 0⟩ 1 (sg_range_diffuse [1] 1) (0, 0) =
      ⟨1 / (1 + TINY), 0, 0⟩ := by
    rw [diffuseSampleDir_zero, hna]
  have hmask : cosMask ⟨1, 0, 0⟩ ⟨1 / (1 + TINY), 0, 0⟩ = true := by
    unfold cosMask
    rw [decide_eq_true_eq]
    norm_num [Vec3.dot, TINY]
  have hcls : classifyVis true ((0 : ℝ), (1 : ℝ)) = 1 := by
    unfold classifyVis
    norm_num
  have hsv : sampleVis (classifyVis true) (fun _ _ => (0, 1)) ⟨0, 0, 0⟩ ⟨1, 0, 0⟩
      ⟨1 / (1 + TINY), 0, 0⟩ = 1 := by
    unfold sampleVis
    rw [hmask]
    simp only [if_true]
    exact hcls
  have hm : diffuseMeanVis 1 (fun _ _ => (0, 1)) ⟨0, 0, 0⟩ ⟨1, 0, 0⟩ ⟨1, 0, 0⟩ 1
      (sg_range_diffuse [1] 1) [(0, 0), (0, 0)] true =
      (Real.exp (1 * (Vec3.dot ⟨1 / (1 + TINY), 0, 0⟩ ⟨1 / (1 + TINY), 0, 0⟩ - 1)) +
          (Real.exp (1 * (Vec3.dot ⟨1 / (1 + TINY), 0, 0⟩ ⟨1 / (1 + TINY), 0, 0⟩ - 1)) + 0)) /
        (Real.exp (1 * (Vec3.dot ⟨1 / (1 + TINY), 0, 0⟩ ⟨1 / (1 + TINY), 0, 0⟩ - 1)) +
          (Real.exp (1 * (Vec3.dot ⟨1 / (1 + TINY), 0, 0⟩ ⟨1 / (1 + TINY), 0, 0⟩ - 1)) + 0) +
          TINY) := by
    unfold diffuseMeanVis
    simp only [visSamples_eq, List.map_cons, List.map_nil, hd, hna, hsv]
    unfold aggVis
    simp only [List.zip_cons_cons, List.zip_nil_right, List.map_cons, List.map_nil,
      List.sum_cons, List.sum_nil, one_mul, add_zero]
  set E := Real.exp (1 * (Vec3.dot ⟨1 / (1 + TINY), 0, 0⟩ ⟨1 / (1 + TINY), 0, 0⟩ - 1)) with hE
  have hEpos : 0 < E := Real.exp_pos _
  have hT := TINY_pos
  refine ⟨?_, ?_, ?_⟩
  · rw [hm]
    apply div_pos <;> linarith
  · rw [hm]
    rw [div_lt_one (by linarith)]
    linarith
  · rfl

/-- C4 (amended): every aggregated visibility returned by
`get_diffuse_visibility` and by `get_specular_visibility` lies in `[0, 1]`
(in argmax mode the per-sample values are in `{0, 1}`, but the aggregate is
their importance-weighted average, so it is only guaranteed to lie in
`[0, 1]`; see the counterexample for strict interiority), and any sample
direction with `dot(normal, dir) ≤ TINY` has per-sample visibility exactly
`0` independently of the predictor, which is not invoked for it. -/
theorem visibility_bounds :
    (∀ (c : ℕ) (VisModel : Vec3 → Vec3 → ℝ × ℝ) (point normal : Vec3)
        (lgtSGs : List (Vec3 × ℝ)) (us : List (List (ℝ × ℝ))) (thr : ℝ) (am : Bool),
        ∀ v ∈ get_diffuse_visibility c VisModel point normal lgtSGs us thr am,
          0 ≤ v ∧ v ≤ 1) ∧
      (∀ (c : ℕ) (VisModel : Vec3 → Vec3 → ℝ × ℝ) (point normal viewdir lobe : Vec3)
        (lambda_raw : ℝ) (batch_lambdas : List ℝ) (us : List (ℝ × ℝ)) (inv am : Bool),
        0 ≤ get_specular_visibility c VisModel point normal viewdir lobe lambda_raw
              batch_lambdas us inv am ∧
          get_specular_visibility c VisModel point normal viewdir lobe lambda_raw
              batch_lambdas us inv am ≤ 1) ∧
      ∀ (classify : ℝ × ℝ → ℝ) (VisModel VisModel' : Vec3 → Vec3 → ℝ × ℝ)
        (point normal d : Vec3), Vec3.dot normal d ≤ TINY →
          sampleVis classify VisModel point normal d = 0 ∧
            sampleVis classify VisModel point normal d =
              sampleVis classify VisModel' point normal d :=
  ⟨get_diffuse_visibility_mem, get_specular_visibility_mem, sampleVis_masked⟩

/-- Witness for C4 at concrete inputs. -/
theorem visibility_bounds_witness :
    (0 ≤ diffuseMeanVis 2 (fun _ _ => (1, 0)) ⟨0, 0, 0⟩ ⟨0, 1, 0⟩ ⟨0, 1, 0⟩ 1
          (sg_range_diffuse [1] (1 / 2)) [(0, 0)] false ∧
        diffuseMeanVis 2 (fun _ _ => (1, 0)) ⟨0, 0, 0⟩ ⟨0, 1, 0⟩ ⟨0, 1, 0⟩ 1
          (sg_range_diffuse [1] (1 / 2)) [(0, 0)] false ≤ 1) ∧
      (0 ≤ get_specular_visibility 3 (fun _ _ => (0, 0)) ⟨0, 0, 0⟩ ⟨0, 0, 1⟩ ⟨0, 0, 1⟩
          ⟨0, 0, 1⟩ 5 [5] [(0, 0)] false false ∧
        get_specular_visibility 3 (fun _ _ => (0, 0)) ⟨0, 0, 0⟩ ⟨0, 0, 1⟩ ⟨0, 0, 1⟩
          ⟨0, 0, 1⟩ 5 [5] [(0, 0)] false false ≤ 1) ∧
      (sampleVis (classifyVis true) (fun _ _ => (0, 1)) ⟨0, 0, 0⟩ ⟨0, 0, 1⟩ ⟨1, 0, 0⟩ = 0 ∧
        sampleVis (classifyVis true) (fun _ _ => (0, 1)) ⟨0, 0, 0⟩ ⟨0, 0, 1⟩ ⟨1, 0, 0⟩ =
          sampleVis (classifyVis true) (fun _ _ => (9, 9)) ⟨0, 0, 0⟩ ⟨0, 0, 1⟩ ⟨1, 0, 0⟩) :=
  ⟨visibility_bounds.1 2 (fun _ _ => (1, 0)) ⟨0, 0, 0⟩ ⟨0, 1, 0⟩ [(⟨0, 1, 0⟩, 1)]
      [[(0, 0)]] (1 / 2) false _ (List.mem_singleton.mpr rfl),
    visibility_bounds.2.1 3 (fun _ _ => (0, 0)) ⟨0, 0, 0⟩ ⟨0, 0, 1⟩ ⟨0, 0, 1⟩ ⟨0, 0, 1⟩
      5 [5] [(0, 0)] false false,
    visibility_bounds.2.2 (classifyVis true) (fun _ _ => (0, 1)) (fun _ _ => (9, 9))
      ⟨0, 0, 0⟩ ⟨0, 0, 1⟩ ⟨1, 0, 0⟩ (by norm_num [Vec3.dot, TINY])⟩

/-! ### Environment map round trip -/

/-- `torch.atan2` recovers the azimuth from a direction scaled by a positive
`sin(phi)`, for azimuths in the principal range `(-pi, pi]`. -/
theorem atan2_mul_sin (s t : ℝ) (hs : 0 < s) (h1 : -π < t) (h2 : t ≤ π) :
    atan2 (Real.sin t * s) (Real.cos t * s) = t := by
  unfold atan2
  have hrw : ((Real.cos t * s : ℝ) : ℂ) + ((Real.sin t * s : ℝ) : ℂ) * Complex.I =
      (s : ℂ) * (Complex.cos t + Complex.sin t * Complex.I) := by
    rw [← Complex.ofReal_cos, ← Complex.ofReal_sin]
    push_cast
    ring
  rw [hrw, Complex.arg_mul_cos_add_sin_mul_I hs ⟨h1, h2⟩]

/-- Bilinear lookup of any stored image at an interior grid cell centre
`(i, j)` (`1 ≤ i ≤ H-2`, `j ≤ W-2`): the `TINY` shift of `phi` moves the
`y`-coordinate a fraction `TINY * (H-1) / pi` below row `i`, so the result
blends rows `i` and `i-1` at exactly column `j`. -/
theorem envmap_round_trip_core (env : ℕ → ℕ → ℝ) (H W i j : ℕ)
    (hW : j + 2 ≤ W) (hi1 : 1 ≤ i) (hi2 : i + 2 ≤ H)
    (hH : TINY * ((H : ℝ) - 1) < π) :
    render_envmap env H W (gridDir H W i j) =
      (1 - TINY * ((H : ℝ) - 1) / π) * env i j +
        TINY * ((H : ℝ) - 1) / π * env (i - 1) j := by
  have hπ := Real.pi_pos
  have hH3 : 3 ≤ H := by omega
  have hHr : (3 : ℝ) ≤ (H : ℝ) := by exact_mod_cast hH3
  have hWr : ((j : ℝ) + 2) ≤ (W : ℝ) := by exact_mod_cast hW
  have hjr : (0 : ℝ) ≤ (j : ℝ) := Nat.cast_nonneg j
  have hW1 : (1 : ℝ) ≤ (W : ℝ) - 1 := by linarith
  have hH1 : (2 : ℝ) ≤ (H : ℝ) - 1 := by linarith
  have hir1 : (1 : ℝ) ≤ (i : ℝ) := by exact_mod_cast hi1
  have hir2 : (i : ℝ) + 2 ≤ (H : ℝ) := by exact_mod_cast hi2
  have hphi_pos : 0 < gridPhi H i := by
    unfold gridPhi
    have h1 : 0 < π / ((H : ℝ) - 1) := by positivity
    nlinarith
  have hphi_lt : gridPhi H i < π := by
    unfold gridPhi
    have h1 : (i : ℝ) < (H : ℝ) - 1 := by linarith
    have h2 : (i : ℝ) * (π / ((H : ℝ) - 1)) < ((H : ℝ) - 1) * (π / ((H : ℝ) - 1)) := by
      apply mul_lt_mul_of_pos_right h1 (by positivity)
    have h3 : ((H : ℝ) - 1) * (π / ((H : ℝ) - 1)) = π := by
      field_simp
    linarith
  have hsin : 0 < Real.sin (gridPhi H i) := Real.sin_pos_of_pos_of_lt_pi hphi_pos hphi_lt
  have hz : Real.arccos ((gridDir H W i j).z) = gridPhi H i :=
    Real.arccos_cos (le_of_lt hphi_pos) (le_of_lt hphi_lt)
  have htheta_le : gridTheta W j ≤ π := by
    unfold gridTheta
    have : 0 ≤ (j : ℝ) * (2 * π / ((W : ℝ) - 1)) := by positivity
    linarith
  have htheta_gt : -π < gridTheta W j := by
    unfold gridTheta
    have h1 : (j : ℝ) < (W : ℝ) - 1 := by linarith
    have h2 : (j : ℝ) * (2 * π / ((W : ℝ) - 1)) < ((W : ℝ) - 1) * (2 * π / ((W : ℝ) - 1)) :=
      mul_lt_mul_of_pos_right h1 (by positivity)
    have h3 : ((W : ℝ) - 1) * (2 * π / ((W : ℝ) - 1)) = 2 * π := by
      field_simp
    linarith
  have hatan : atan2 ((gridDir H W i j).y) ((gridDir H W i j).x) = gridTheta W j :=
    atan2_mul_sin (Real.sin (gridPhi H i)) (gridTheta W j) hsin htheta_gt htheta_le
  have hc0pos : 0 < TINY * ((H : ℝ) - 1) / π :=
    div_pos (mul_pos TINY_pos (by linarith)) hπ
  have hc0lt : TINY * ((H : ℝ) - 1) / π < 1 := (div_lt_one hπ).mpr hH
  have hiy : ((gridPhi H i - TINY) / π * 2 - 1 + 1) / 2 * ((H : ℝ) - 1) =
      (i : ℝ) - TINY * ((H : ℝ) - 1) / π := by
    unfold gridPhi
    have hne : ((H : ℝ) - 1) ≠ 0 := by linarith
    field_simp
    ring
  have hfy : ⌊(i : ℝ) - TINY * ((H : ℝ) - 1) / π⌋ = (i : ℤ) - 1 := by
    rw [Int.floor_eq_iff]
    constructor
    · push_cast
      linarith
    · push_cast
      linarith
  have hix : (-gridTheta W j / π + 1) / 2 * ((W : ℝ) - 1) = (j : ℝ) := by
    unfold gridTheta
    have hne : ((W : ℝ) - 1) ≠ 0 := by linarith
    field_simp
    ring
  have hjfloor : ⌊(j : ℝ)⌋ = (j : ℤ) := Int.floor_natCast j
  unfold render_envmap
  simp only [hz, hatan, hiy, hix, hfy, hjfloor, Int.cast_natCast, sub_self, zero_mul,
    mul_zero, add_zero, sub_zero, one_mul]
  have htn1 : ((i : ℤ) - 1).toNat = i - 1 := by omega
  have htn2 : ((i : ℤ) - 1 + 1) = (i : ℤ) := by ring
  have hin1 : (0 : ℤ) ≤ (i : ℤ) - 1 := by omega
  have hin2 : (i : ℤ) - 1 < (H : ℤ) := by omega
  have hin3 : (0 : ℤ) ≤ (j : ℤ) := by omega
  have hin4 : (j : ℤ) < (W : ℤ) := by omega
  have hin5 : (i : ℤ) < (H : ℤ) := by omega
  rw [htn2]
  rw [if_pos ⟨hin1, hin2, hin3, hin4⟩, if_pos ⟨Int.natCast_nonneg i, hin5, hin3, hin4⟩]
  rw [htn1]
  simp only [Int.toNat_natCast]
  push_cast
  ring

/-- C5: for any direction lying exactly on an interior grid cell centre
`(i, j)` (`1 ≤ i ≤ H-2` — away from the two pole rows, where the direction
degenerates to `(0, 0, ±1)` — and `j ≤ W-2`, the last column repeating the
azimuth of the first), sampling the rasterised environment map produced by
`compute_envmap` returns the direct SG evaluation `render_envmap_sg` up to
the bilinear interpolation error: it is exactly the convex blend putting
weight `TINY * (H-1) / pi` (about `3e-7 * (H-1)`) on the adjacent row's
value and the rest on the exact value. -/
theorem envmap_round_trip (lgtSGs : List SGLight) (H W i j : ℕ)
    (hW : j + 2 ≤ W) (hi1 : 1 ≤ i) (hi2 : i + 2 ≤ H)
    (hH : TINY * ((H : ℝ) - 1) < π) :
    render_envmap (compute_envmap lgtSGs H W) H W (gridDir H W i j) =
      (1 - TINY * ((H : ℝ) - 1) / π) * render_envmap_sg lgtSGs (gridDir H W i j) +
        TINY * ((H : ℝ) - 1) / π * render_envmap_sg lgtSGs (gridDir H W (i - 1) j) :=
  envmap_round_trip_core (compute_envmap lgtSGs H W) H W i j hW hi1 hi2 hH

/-- Witness for C5: one SG lobe, a 4 x 3 grid, cell `(1, 1)`. -/
theorem envmap_round_trip_witness :
    render_envmap (compute_envmap [(⟨0, 0, 1⟩, 1, 1)] 4 3) 4 3 (gridDir 4 3 1 1) =
      (1 - TINY * ((4 : ℝ) - 1) / π) *
          render_envmap_sg [(⟨0, 0, 1⟩, 1, 1)] (gridDir 4 3 1 1) +
        TINY * ((4 : ℝ) - 1) / π * render_envmap_sg [(⟨0, 0, 1⟩, 1, 1)] (gridDir 4 3 0 1) :=
  envmap_round_trip [(⟨0, 0, 1⟩, 1, 1)] 4 3 1 1 (by norm_num) (by norm_num) (by norm_num)
    (by norm_num [TINY]; nlinarith [Real.pi_gt_three])

end
